import Mathlib

/-!
Verification of the file-access helpers of `src/Rieger.h` (namespace `IO` in
the source; named `Rieger` here because `IO` is taken by the Lean prelude).

The filesystem is modelled as a map from paths to entries, where an entry is
either a regular file holding a byte sequence or a directory.  Opening an
existing regular file succeeds; opening a directory for writing fails (this is
the observable open-failure of `std::ofstream` in the model's scope).  Text
and binary streams coincide (POSIX narrow-character behaviour: no newline
translation).  `seekg` to any non-negative offset succeeds, including offsets
past end-of-file, as `lseek` permits; a subsequent `read` then transfers zero
bytes.  Bytes are modelled as `Nat` (values below 256 in any real file, but
nothing here depends on the bound), paths as `String`.
-/

namespace Rieger

/-- A filesystem entry: a regular file with its byte contents, or a directory. -/
inductive Entry where
  | file (bytes : List Nat) : Entry
  | dir : Entry
deriving DecidableEq

/-- A model filesystem: each path is absent, a regular file, or a directory. -/
def FS : Type := String → Option Entry

/-- Embeds `IO::Read` (src/Rieger.h:58-72): fails if the path does not exist or
is a directory, otherwise returns the whole file content read through
`istreambuf_iterator`. -/
def Read (fs : FS) (filename : String) : Option (List Nat) :=
  match fs filename with
  | none => none
  | some Entry.dir => none
  | some (Entry.file bytes) => some bytes

/-- Embeds `IO::ReadAllBytes` (src/Rieger.h:74-88): same checks as `Read`, the
stream is opened in binary mode and the whole content returned as bytes. -/
def ReadAllBytes (fs : FS) (filename : String) : Option (List Nat) :=
  match fs filename with
  | none => none
  | some Entry.dir => none
  | some (Entry.file bytes) => some bytes

/-- One `std::getline(file, line)` call on the remaining input: the line is
everything before the first newline (byte 10), and the input left over is
everything after that newline (the newline itself is consumed and discarded).
On input without a newline the whole input becomes the line and nothing is
left. -/
def getline (content : List Nat) : List Nat × List Nat :=
  (content.takeWhile (fun c => !(c == 10)),
   (content.dropWhile (fun c => !(c == 10))).drop 1)

/-- The `while (std::getline(file, line))` loop of `IO::ReadAllLines`
(src/Rieger.h:100-104), driven by fuel: on empty input `getline` fails and the
loop stops; otherwise one line is recorded and the loop continues.  Each
`getline` on nonempty input consumes at least one byte, so fuel equal to the
input length (as supplied by `getLines`) is never exhausted. -/
def getLinesFuel : Nat → List Nat → List (List Nat)
  | _, [] => []
  | 0, _ :: _ => []
  | fuel + 1, c :: cs =>
    (getline (c :: cs)).1 :: getLinesFuel fuel (getline (c :: cs)).2

/-- The list of lines `IO::ReadAllLines` accumulates from a file content:
each iteration consumes up to and including the next newline and records the
line without its terminator; a final fragment without a trailing newline still
becomes a line, and a trailing newline does not produce an extra empty
line. -/
def getLines (content : List Nat) : List (List Nat) :=
  getLinesFuel content.length content

/-- Embeds `IO::ReadAllLines` (src/Rieger.h:90-109). -/
def ReadAllLines (fs : FS) (filename : String) : Option (List (List Nat)) :=
  match fs filename with
  | none => none
  | some Entry.dir => none
  | some (Entry.file bytes) => some (getLines bytes)

/-- Embeds `IO::ReadBlock` (src/Rieger.h:111-135): after the existence and
directory checks and a `seekg` to `blockOffset` (which succeeds for every
offset), `read` transfers `min blockSize (size - blockOffset)` bytes; the
buffer is returned only when `gcount()` equals `blockSize`, otherwise the
result is absent. -/
def ReadBlock (fs : FS) (filename : String) (blockOffset blockSize : Nat) :
    Option (List Nat) :=
  match fs filename with
  | none => none
  | some Entry.dir => none
  | some (Entry.file bytes) =>
    let got := (bytes.drop blockOffset).take blockSize
    if got.length = blockSize then some got else none

/-- Opening a path for writing with `std::ofstream` (create-or-truncate) fails
exactly when the path names a directory; creating a missing file and
truncating an existing one both succeed. -/
def openForWriteFails (fs : FS) (filename : String) : Prop :=
  fs filename = some Entry.dir

instance (fs : FS) (filename : String) : Decidable (openForWriteFails fs filename) := by
  unfold openForWriteFails
  infer_instance

/-- Embeds `IO::Write` (src/Rieger.h:137-147): opens the path for writing
(truncating), returns `false` if the open fails, otherwise writes `content`
verbatim and returns `true`.  The pair carries the success flag and the
filesystem after the call. -/
def Write (fs : FS) (filename : String) (content : List Nat) : Bool × FS :=
  match fs filename with
  | some Entry.dir => (false, fs)
  | _ => (true, fun q => if q = filename then some (Entry.file content) else fs q)

/-- Embeds `IO::WriteAllBytes` (src/Rieger.h:149-159): identical to `Write`
except the stream is binary and the payload is a byte sequence. -/
def WriteAllBytes (fs : FS) (filename : String) (bytes : List Nat) : Bool × FS :=
  match fs filename with
  | some Entry.dir => (false, fs)
  | _ => (true, fun q => if q = filename then some (Entry.file bytes) else fs q)

/-- The byte content produced by the loop of `IO::WriteAllLines`
(src/Rieger.h:167-169): every line is written followed by one newline. -/
def linesToBytes (lines : List (List Nat)) : List Nat :=
  lines.foldr (fun line acc => line ++ 10 :: acc) []

/-- Embeds `IO::WriteAllLines` (src/Rieger.h:161-174): opens the path for
writing (truncating), returns `false` if the open fails, otherwise writes each
line terminated by a newline and returns `true`. -/
def WriteAllLines (fs : FS) (filename : String) (lines : List (List Nat)) : Bool × FS :=
  match fs filename with
  | some Entry.dir => (false, fs)
  | _ => (true, fun q => if q = filename then some (Entry.file (linesToBytes lines)) else fs q)

/-- A tiny concrete filesystem used by witnesses: `"f"` holds one byte,
`"ten"` holds ten bytes, `"d"` is a directory, everything else is absent. -/
def exFS : FS := fun p =>
  if p = "f" then some (Entry.file [7])
  else if p = "ten" then some (Entry.file [0, 1, 2, 3, 4, 5, 6, 7, 8, 9])
  else if p = "d" then some Entry.dir
  else none

/-! Helper lemmas about the getline loop. -/

/-- Dropping a prefix by a predicate never lengthens a list. -/
theorem dropWhile_length_le (p : Nat → Bool) :
    ∀ l : List Nat, (l.dropWhile p).length ≤ l.length := by
  intro l
  induction l with
  | nil => simp [List.dropWhile]
  | cons a l ih =>
    simp only [List.dropWhile]
    cases p a
    · simp
    · simp
      omega

/-- The loop on empty input stops at once, whatever the fuel. -/
theorem getLinesFuel_nil (fuel : Nat) : getLinesFuel fuel [] = [] := by
  cases fuel <;> rfl

/-- On nonempty input with positive fuel the loop records one line and
continues on what `getline` leaves. -/
theorem getLinesFuel_cons (fuel : Nat) (content : List Nat) (h : content ≠ []) :
    getLinesFuel (fuel + 1) content =
      (getline content).1 :: getLinesFuel fuel (getline content).2 := by
  cases content with
  | nil => exact absurd rfl h
  | cons c cs => rfl

/-- The input left over by `getline` on nonempty input is strictly shorter. -/
theorem getline_snd_length_lt (content : List Nat) (h : content ≠ []) :
    (getline content).2.length < content.length := by
  have h1 : (content.dropWhile (fun c => !(c == 10))).length ≤ content.length :=
    dropWhile_length_le _ content
  have h2 : 0 < content.length := List.length_pos.mpr h
  simp only [getline, List.length_drop]
  omega

/-- Any two sufficient fuels drive the getline loop to the same result. -/
theorem getLinesFuel_congr :
    ∀ (fuel1 fuel2 : Nat) (content : List Nat), content.length ≤ fuel1 →
      content.length ≤ fuel2 → getLinesFuel fuel1 content = getLinesFuel fuel2 content := by
  intro fuel1
  induction fuel1 with
  | zero =>
    intro fuel2 content h1 h2
    have : content = [] := List.length_eq_zero.mp (Nat.le_zero.mp h1)
    subst this
    rw [getLinesFuel_nil, getLinesFuel_nil]
  | succ f1 ih =>
    intro fuel2 content h1 h2
    cases content with
    | nil => rw [getLinesFuel_nil, getLinesFuel_nil]
    | cons c cs =>
      have hne : (c :: cs) ≠ [] := by simp
      have hlt : (getline (c :: cs)).2.length < (c :: cs).length :=
        getline_snd_length_lt _ hne
      cases fuel2 with
      | zero => simp at h2
      | succ f2 =>
        rw [getLinesFuel_cons f1 _ hne, getLinesFuel_cons f2 _ hne]
        have := ih f2 (getline (c :: cs)).2 (by simp at h1 hlt ⊢; omega)
          (by simp at h2 hlt ⊢; omega)
        rw [this]

/-- Given fuel at least the input length, the loop computes `getLines`. -/
theorem getLinesFuel_eq_getLines (fuel : Nat) (content : List Nat)
    (h : content.length ≤ fuel) : getLinesFuel fuel content = getLines content :=
  getLinesFuel_congr fuel content.length content h (Nat.le_refl _)

/-- One `getline` on input formed of a newline-free line, a newline and a rest
returns that line and that rest. -/
theorem getline_append (l rest : List Nat) (h : 10 ∉ l) :
    getline (l ++ 10 :: rest) = (l, rest) := by
  have hp : ∀ a ∈ l, (!(a == 10)) = true := by
    intro a ha
    simp only [Bool.not_eq_true']
    exact beq_eq_false_iff_ne.mpr (fun hc => h (hc ▸ ha))
  simp [getline, List.takeWhile_append_of_pos hp, List.dropWhile_append_of_pos hp,
    List.takeWhile, List.dropWhile]

/-- Reading lines from a newline-free line, a newline and a rest yields that
line followed by the lines of the rest. -/
theorem getLines_append (l rest : List Nat) (h : 10 ∉ l) :
    getLines (l ++ 10 :: rest) = l :: getLines rest := by
  have hlen : (l ++ 10 :: rest).length = (l.length + rest.length) + 1 := by
    simp; omega
  have hne : (l ++ 10 :: rest) ≠ [] := by simp
  unfold getLines
  rw [hlen, getLinesFuel_cons _ _ hne, getline_append l rest h]
  rw [getLinesFuel_eq_getLines _ rest (by omega)]
  rfl

/-- Encoding lines (each newline-free) as newline-terminated bytes and reading
them back with the getline loop is the identity. -/
theorem getLines_linesToBytes :
    ∀ L : List (List Nat), (∀ l ∈ L, 10 ∉ l) → getLines (linesToBytes L) = L := by
  intro L
  induction L with
  | nil => intro _; rfl
  | cons l L ih =>
    intro h
    have hstep : linesToBytes (l :: L) = l ++ 10 :: linesToBytes L := rfl
    rw [hstep, getLines_append l _ (h l (List.mem_cons_self l L))]
    rw [ih (fun x hx => h x (List.mem_cons_of_mem l hx))]

/-! Claim theorems. -/

/-- Claim C1 counterexample: the claim as stated fails when the requested
length is 0 and the offset lies beyond the end of the file.  The path `"f"` of
`exFS` holds a 1-byte file; with offset 2 and length 0 we have
`offset + length = 2 > 1`, yet `ReadBlock` returns a present (empty) buffer
rather than an absent result, because `seekg` past end-of-file succeeds and a
zero-byte `read` transfers exactly the zero bytes requested. -/
theorem readBlock_overlong_counterexample :
    exFS "f" = some (Entry.file [7]) ∧ 1 < 2 + 0 ∧
      ReadBlock exFS "f" 2 0 = some [] := by
  refine ⟨rfl, by omega, by decide⟩

/-- Claim C1 (amended): for every filesystem, path, byte offset and POSITIVE
block length, if the path holds a regular file whose size is less than
`offset + length`, then `ReadBlock` returns an absent result; and `ReadBlock`
never returns a buffer shorter than the requested length — every present
result has exactly the requested length. -/
theorem readBlock_overlong_absent (fs : FS) (p : String) (off len : Nat)
    (bytes : List Nat) (hf : fs p = some (Entry.file bytes)) (hpos : 0 < len)
    (hover : bytes.length < off + len) :
    ReadBlock fs p off len = none ∧
      ∀ off2 len2 buf, ReadBlock fs p off2 len2 = some buf → buf.length = len2 := by
  constructor
  · simp only [ReadBlock, hf]
    rw [if_neg]
    simp only [List.length_take, List.length_drop]
    omega
  · intro off2 len2 buf hbuf
    simp only [ReadBlock, hf] at hbuf
    split at hbuf
    · cases hbuf
      assumption
    · cases hbuf

/-- Claim C1 witness: on the 1-byte file `"f"` of `exFS`, a block read at
offset 2 of length 1 is absent. -/
theorem readBlock_overlong_absent_witness :
    ReadBlock exFS "f" 2 1 = none :=
  (readBlock_overlong_absent exFS "f" 2 1 [7] rfl (by omega) (by decide)).1

/-- Claim C2: for every filesystem, path and text content, if `IO::Write`
succeeds then `IO::Read` on that path in the resulting filesystem returns a
present result equal to exactly the written content. -/
theorem write_read_roundtrip (fs : FS) (p : String) (content : List Nat)
    (h : (Write fs p content).1 = true) :
    Read (Write fs p content).2 p = some content := by
  rcases hfp : fs p with _ | e
  · simp [Write, Read, hfp]
  · cases e with
    | file b => simp [Write, Read, hfp]
    | dir => simp [Write, hfp] at h

/-- Claim C2 witness: writing two bytes of text to the fresh path `"g"`
succeeds, and reading it back returns exactly them. -/
theorem write_read_roundtrip_witness :
    Read (Write exFS "g" [104, 105]).2 "g" = some [104, 105] :=
  write_read_roundtrip exFS "g" [104, 105] (by decide)

/-- Claim C3: for every filesystem, path and byte sequence, if
`IO::WriteAllBytes` succeeds then `IO::ReadAllBytes` on that path in the
resulting filesystem returns a present sequence equal to the written one in
both length and byte values. -/
theorem writeAllBytes_roundtrip (fs : FS) (p : String) (bytes : List Nat)
    (h : (WriteAllBytes fs p bytes).1 = true) :
    ReadAllBytes (WriteAllBytes fs p bytes).2 p = some bytes := by
  rcases hfp : fs p with _ | e
  · simp [WriteAllBytes, ReadAllBytes, hfp]
  · cases e with
    | file b => simp [WriteAllBytes, ReadAllBytes, hfp]
    | dir => simp [WriteAllBytes, hfp] at h

/-- Claim C3 witness: writing the bytes 0, 255 to the fresh path `"g"`
succeeds, and reading them back returns exactly them. -/
theorem writeAllBytes_roundtrip_witness :
    ReadAllBytes (WriteAllBytes exFS "g" [0, 255]).2 "g" = some [0, 255] :=
  writeAllBytes_roundtrip exFS "g" [0, 255] (by decide)

/-- Claim C4: for every filesystem, path and sequence of lines none of which
contains an embedded newline, if `IO::WriteAllLines` succeeds then
`IO::ReadAllLines` on that path in the resulting filesystem returns exactly
the written sequence: same elements, same order, no trailing entries
introduced or removed. -/
theorem writeAllLines_roundtrip (fs : FS) (p : String) (L : List (List Nat))
    (hnl : ∀ l ∈ L, 10 ∉ l) (h : (WriteAllLines fs p L).1 = true) :
    ReadAllLines (WriteAllLines fs p L).2 p = some L := by
  rcases hfp : fs p with _ | e
  · simp [WriteAllLines, ReadAllLines, hfp, getLines_linesToBytes L hnl]
  · cases e with
    | file b => simp [WriteAllLines, ReadAllLines, hfp, getLines_linesToBytes L hnl]
    | dir => simp [WriteAllLines, hfp] at h

/-- Claim C4 witness: writing the two newline-free lines "hi", "yo" to the
fresh path `"g"` succeeds, and reading lines back returns exactly them. -/
theorem writeAllLines_roundtrip_witness :
    ReadAllLines (WriteAllLines exFS "g" [[104, 105], [121, 111]]).2 "g" =
      some [[104, 105], [121, 111]] :=
  writeAllLines_roundtrip exFS "g" [[104, 105], [121, 111]] (by decide) (by decide)

/-- Claim C5: for every filesystem and path holding a regular file,
`IO::ReadBlock` at offset 0 with length equal to the file's size returns the
same result as `IO::ReadAllBytes` on that path. -/
theorem readBlock_whole_eq_readAllBytes (fs : FS) (p : String) (bytes : List Nat)
    (hf : fs p = some (Entry.file bytes)) :
    ReadBlock fs p 0 bytes.length = ReadAllBytes fs p := by
  simp [ReadBlock, ReadAllBytes, hf]

/-- Claim C5 witness: on the 10-byte file `"ten"` of `exFS`, a block read at
offset 0 of the full length agrees with the whole-file byte read. -/
theorem readBlock_whole_eq_readAllBytes_witness :
    ReadBlock exFS "ten" 0 ([0, 1, 2, 3, 4, 5, 6, 7, 8, 9] : List Nat).length =
      ReadAllBytes exFS "ten" :=
  readBlock_whole_eq_readAllBytes exFS "ten" [0, 1, 2, 3, 4, 5, 6, 7, 8, 9] rfl

/-- Claim C6: for every filesystem and path holding a 10-byte regular file,
`IO::ReadBlock` with offset 5 and length 5 returns exactly the last 5 bytes,
and `IO::ReadBlock` with offset 5 and length 6 returns an absent result. -/
theorem readBlock_ten_byte_example (fs : FS) (p : String) (bytes : List Nat)
    (hf : fs p = some (Entry.file bytes)) (hlen : bytes.length = 10) :
    ReadBlock fs p 5 5 = some (bytes.drop 5) ∧ ReadBlock fs p 5 6 = none := by
  constructor
  · simp only [ReadBlock, hf]
    rw [if_pos, List.take_of_length_le]
    · simp [hlen]
    · simp [List.length_take, List.length_drop, hlen]
  · simp only [ReadBlock, hf]
    rw [if_neg]
    simp [List.length_take, List.length_drop, hlen]

/-- Claim C6 witness: on the concrete 10-byte file `"ten"` of `exFS`, the
offset-5 length-5 block read returns the last 5 bytes and the offset-5
length-6 block read is absent. -/
theorem readBlock_ten_byte_example_witness :
    ReadBlock exFS "ten" 5 5 = some (([0, 1, 2, 3, 4, 5, 6, 7, 8, 9] : List Nat).drop 5) ∧
      ReadBlock exFS "ten" 5 6 = none :=
  readBlock_ten_byte_example exFS "ten" [0, 1, 2, 3, 4, 5, 6, 7, 8, 9] rfl rfl

/-- Claim C7: for every filesystem and every path that is absent or a
directory, all four read operations (`IO::Read`, `IO::ReadAllBytes`,
`IO::ReadAllLines`, and `IO::ReadBlock` at every offset and length) return an
absent result. -/
theorem reads_absent_on_missing_or_dir (fs : FS) (p : String)
    (h : fs p = none ∨ fs p = some Entry.dir) :
    Read fs p = none ∧ ReadAllBytes fs p = none ∧ ReadAllLines fs p = none ∧
      ∀ off len, ReadBlock fs p off len = none := by
  rcases h with h | h
  · simp [Read, ReadAllBytes, ReadAllLines, ReadBlock, h]
  · simp [Read, ReadAllBytes, ReadAllLines, ReadBlock, h]

/-- Claim C7 witness: on `exFS`, the directory `"d"` and the absent path
`"nope"` both give absent results, shown here for the text read and a block
read. -/
theorem reads_absent_on_missing_or_dir_witness :
    Read exFS "d" = none ∧ ReadBlock exFS "nope" 3 4 = none :=
  ⟨(reads_absent_on_missing_or_dir exFS "d" (Or.inr rfl)).1,
   (reads_absent_on_missing_or_dir exFS "nope" (Or.inl rfl)).2.2.2 3 4⟩

/-- Claim C8: each write operation (`IO::Write`, `IO::WriteAllBytes`,
`IO::WriteAllLines`) returns the failure flag exactly when the path cannot be
opened for writing (in the model: the path names a directory), and the success
flag whenever the open succeeds.  In the embedding every operation is a total
function into `Bool × FS`, so failure is signalled only through the boolean
and no exception channel exists; the boolean carries no cause information. -/
theorem write_failure_iff_cannot_open (fs : FS) (p : String)
    (content bytes : List Nat) (L : List (List Nat)) :
    ((Write fs p content).1 = false ↔ openForWriteFails fs p) ∧
      ((WriteAllBytes fs p bytes).1 = false ↔ openForWriteFails fs p) ∧
      ((WriteAllLines fs p L).1 = false ↔ openForWriteFails fs p) := by
  rcases hfp : fs p with _ | e
  · simp [Write, WriteAllBytes, WriteAllLines, openForWriteFails, hfp]
  · cases e with
    | file b => simp [Write, WriteAllBytes, WriteAllLines, openForWriteFails, hfp]
    | dir => simp [Write, WriteAllBytes, WriteAllLines, openForWriteFails, hfp]

/-- Claim C9: every successful write replaces the file's prior contents
entirely: for EVERY prior filesystem (so regardless of what the path held
before), after a successful `IO::Write`, `IO::WriteAllBytes` or
`IO::WriteAllLines`, a whole-file read of that path observes exactly the
content just written — the verbatim text, the verbatim bytes, or each line
followed by one newline.  Nothing of the prior content survives. -/
theorem write_truncates (fs : FS) (p : String) (content bytes : List Nat)
    (L : List (List Nat)) :
    ((Write fs p content).1 = true → Read (Write fs p content).2 p = some content) ∧
      ((WriteAllBytes fs p bytes).1 = true →
        ReadAllBytes (WriteAllBytes fs p bytes).2 p = some bytes) ∧
      ((WriteAllLines fs p L).1 = true →
        Read (WriteAllLines fs p L).2 p = some (linesToBytes L)) := by
  rcases hfp : fs p with _ | e
  · simp [Write, WriteAllBytes, WriteAllLines, Read, ReadAllBytes, hfp]
  · cases e with
    | file b => simp [Write, WriteAllBytes, WriteAllLines, Read, ReadAllBytes, hfp]
    | dir => simp [Write, WriteAllBytes, WriteAllLines, hfp]

/-- Claim C9 witness: the path `"f"` of `exFS` already holds the byte 7;
overwriting it with the two bytes 8, 9 succeeds and a whole-file read then
observes exactly 8, 9 — the prior content is gone. -/
theorem write_truncates_witness :
    Read (Write exFS "f" [8, 9]).2 "f" = some [8, 9] :=
  (write_truncates exFS "f" [8, 9] [8, 9] []).1 (by decide)

/-- Claim C10: for every filesystem and path holding a regular file (which
therefore opens), `IO::ReadBlock` with length 0 returns a present, empty byte
sequence at EVERY offset, including offsets beyond the file's size: the seek
succeeds even past end-of-file and a zero-byte read transfers exactly the zero
bytes requested. -/
theorem readBlock_zero_length (fs : FS) (p : String) (bytes : List Nat)
    (hf : fs p = some (Entry.file bytes)) (off : Nat) :
    ReadBlock fs p off 0 = some [] := by
  simp [ReadBlock, hf]

/-- Claim C10 witness: on the 1-byte file `"f"` of `exFS`, a zero-length block
read at offset 5 — beyond the file's size — returns a present empty buffer. -/
theorem readBlock_zero_length_witness :
    ReadBlock exFS "f" 5 0 = some [] :=
  readBlock_zero_length exFS "f" [7] rfl 5

end Rieger
